import Mathlib

/-!
Shallow embedding of the TurboAudio core (audio_processing.rs and main.rs),
with theorems checking the natural-language specification against it.

Modelling conventions:
* `f32` arithmetic is idealised as exact rational (`ℚ`) arithmetic for the
  band-query layer and as real (`ℝ`) arithmetic for the FFT pipeline; all
  quantities involved stay far from the rounding granularity of `f32`, so
  floor/ceil/comparison results agree with the exact values.
* Rust `usize` values are `ℕ`; where the source can wrap (`len() - 1` on an
  empty vector, release-mode semantics) the wrap modulo `2^64` is written out
  explicitly, and where a float is cast with `as usize` the saturating
  truncation is modelled by `castUsize`.
* A Rust panic (`expect`, `panic!`, `todo!`, out-of-bounds slicing) is
  modelled by `Option.none` in the function result.
* The one place the source can produce a NaN — `sum / interval_size` with
  `interval_size = 0.0` in `get_frequency_interval_average_amplitude` — is
  modelled by `none`, since `ℚ` has no NaN; a `some` result is a finite float.
-/

namespace TurboAudio

/-- audio_processing.rs line 12: `const SAMPLE_RATE: usize = 48000`. -/
def SAMPLE_RATE : ℕ := 48000

/-- audio_processing.rs line 13: `const FFT_SIZE: usize = 1024`. -/
def FFT_SIZE : ℕ := 1024

/-- audio_processing.rs line 14: `FFT_RESOLUTION = SAMPLE_RATE as f32 / FFT_SIZE as f32`
(exactly representable in f32: 46.875). -/
def FFT_RESOLUTION : ℚ := (SAMPLE_RATE : ℚ) / (FFT_SIZE : ℚ)

/-- Number of values of the 64-bit `usize` type. -/
def USIZE_MOD : ℕ := 2 ^ 64

/-- Rust `as usize` applied to a nonnegative finite f32 value: truncate toward
zero, saturating at `usize::MAX`. -/
def castUsize (x : ℚ) : ℕ := min (Int.toNat ⌊x⌋) (USIZE_MOD - 1)

/-- audio_processing.rs lines 7–10: `struct FftResult { raw_bins: Vec<f32> }`.
The element type is a parameter: the band queries are stated over exact
rational bins, the FFT pipeline publishes real-valued bins. `#[derive(Default)]`
gives the empty bin vector. -/
structure FftResult (α : Type) where
  raw_bins : List α

/-- audio_processing.rs lines 76–78: `(*index as f32 * FFT_RESOLUTION) as usize`,
the integer-truncated frequency of a bin. -/
def get_bin_frequency_at_index (index : ℕ) : ℕ :=
  Int.toNat ⌊(index : ℚ) * FFT_RESOLUTION⌋

/-- audio_processing.rs line 65: `precise_index.floor().to_usize()?` — the
floor of the nonnegative `precise_index = frequency as f32 / FFT_RESOLUTION`;
`to_usize` always succeeds here (the value is nonnegative and below
`usize::MAX`), so it is the plain integer truncation. -/
def min_bin_index (frequency : ℕ) : ℕ :=
  Int.toNat ⌊(frequency : ℚ) / FFT_RESOLUTION⌋

/-- audio_processing.rs line 66: `precise_index.ceil().to_usize()?`. -/
def max_bin_index (frequency : ℕ) : ℕ :=
  Int.toNat ⌈(frequency : ℚ) / FFT_RESOLUTION⌉

/-- audio_processing.rs lines 67–70: the `usize` subtraction
`frequency - get_bin_frequency_at_index(min_index)` never underflows (the
truncated bin frequency is at most `frequency`), so ℕ-subtraction coincides
with the source. -/
def position_between_bins (frequency : ℕ) : ℚ :=
  ((frequency - get_bin_frequency_at_index (min_bin_index frequency) : ℕ) : ℚ)
    / FFT_RESOLUTION

/-- audio_processing.rs lines 62–74. Interpolated amplitude at an integer
frequency; the two `raw_bins.get(..)?` lookups are the only `None` sources. -/
def get_frequency_amplitude (r : FftResult ℚ) (frequency : ℕ) : Option ℚ := do
  let a ← r.raw_bins[min_bin_index frequency]?
  let b ← r.raw_bins[max_bin_index frequency]?
  pure (a * position_between_bins frequency
    + b * (1 - position_between_bins frequency))

/-- audio_processing.rs lines 39–49. Mean of the per-frequency estimates over
`min_freq..max_freq`; out-of-range frequencies contribute `unwrap_or(0.0)`.
When `max_freq = min_freq` the source computes `0.0 / 0.0 = NaN` (and returns
`Some(NaN)`); that NaN is modelled by `none`. (For `max_freq < min_freq` the
source's `usize` subtraction panics in debug / wraps in release; no claim
touches that case and the model truncates it like the empty range.) -/
def get_frequency_interval_average_amplitude (r : FftResult ℚ)
    (min_freq max_freq : ℕ) : Option ℚ :=
  let sum : ℚ := ((List.range' min_freq (max_freq - min_freq)).map
    (fun frequency => (get_frequency_amplitude r frequency).getD 0)).sum
  if max_freq - min_freq = 0 then none
  else some (sum / ((max_freq - min_freq : ℕ) : ℚ))

/-- audio_processing.rs lines 21–25: band 0–100 Hz, `unwrap_or(0.0)`. -/
def get_low_frequency_amplitude (r : FftResult ℚ) : ℚ :=
  (get_frequency_interval_average_amplitude r 0 100).getD 0

/-- audio_processing.rs lines 27–31: band 100–1000 Hz, `unwrap_or(0.0)`. -/
def get_mid_frequency_amplitude (r : FftResult ℚ) : ℚ :=
  (get_frequency_interval_average_amplitude r 100 1000).getD 0

/-- audio_processing.rs lines 33–37: band 1000–2000 Hz, `unwrap_or(0.0)`. -/
def get_high_frequency_amplitude (r : FftResult ℚ) : ℚ :=
  (get_frequency_interval_average_amplitude r 1000 2000).getD 0

/-- audio_processing.rs lines 51–59. `raw_bins.len() - 1` is a `usize`
subtraction, modelled with explicit wrap modulo `2^64` (release semantics; on
an empty vector it yields `usize::MAX`). The slice `&raw_bins[low..=high]` is
taken only when `low_index < high_index`; it panics (`none`) when
`high_index + 1` exceeds the vector length. The divisor is
`high_index - low_index`, not the element count of the closed range. -/
def get_frequency_interval_average (r : FftResult ℚ) (low high : ℕ) : Option ℚ :=
  let low_index : ℕ := castUsize ((low : ℚ) / FFT_RESOLUTION)
  let high_index : ℕ := min (castUsize ((high : ℚ) / FFT_RESOLUTION))
    ((r.raw_bins.length + USIZE_MOD - 1) % USIZE_MOD)
  if low_index ≥ high_index then some 0
  else if high_index + 1 ≤ r.raw_bins.length then
    some ((((r.raw_bins.drop low_index).take (high_index + 1 - low_index)).sum)
      / ((high_index - low_index : ℕ) : ℚ))
  else none

section ConcreteEvaluation

/- Core marks the `Rat` field operations `@[irreducible]`; concrete evaluation
by `decide` needs them reducible again. -/
attribute [local semireducible] Rat.mul Rat.inv Rat.add Rat.sub

example : get_frequency_interval_average ⟨[1, 1, 1]⟩ 0 100 = some (3 / 2) := by decide
example : get_frequency_interval_average_amplitude ⟨[0, 1, 0]⟩ 50 51 = some (32 / 375) := by
  decide
example : get_frequency_interval_average_amplitude ⟨[0, 0, 1]⟩ 93 94 = some (-(1 / 375)) := by
  decide
example : get_frequency_interval_average_amplitude ⟨[1, 1, 1]⟩ 100 100 = none := by decide
example : get_frequency_interval_average ⟨[]⟩ 0 47 = none := by decide
example : get_frequency_interval_average ⟨[]⟩ 0 0 = some 0 := by decide

end ConcreteEvaluation

/-! ### Basic facts about the bin geometry -/

theorem FFT_RESOLUTION_eq : FFT_RESOLUTION = 375 / 8 := by
  norm_num [FFT_RESOLUTION, SAMPLE_RATE, FFT_SIZE]

theorem FFT_RESOLUTION_pos : 0 < FFT_RESOLUTION := by
  rw [FFT_RESOLUTION_eq]; norm_num

theorem one_le_FFT_RESOLUTION : 1 ≤ FFT_RESOLUTION := by
  rw [FFT_RESOLUTION_eq]; norm_num

/-- The floor bin index as a natural-number division. -/
theorem min_bin_index_eq_div (f : ℕ) : min_bin_index f = 8 * f / 375 := by
  have h : (f : ℚ) / FFT_RESOLUTION = ((8 * f : ℕ) : ℚ) / ((375 : ℕ) : ℚ) := by
    rw [FFT_RESOLUTION_eq]; push_cast; ring
  rw [min_bin_index, h, Int.floor_toNat, Nat.floor_div_nat, Nat.floor_natCast]

/-- The truncated bin frequency as a natural-number division. -/
theorem get_bin_frequency_at_index_eq_div (i : ℕ) :
    get_bin_frequency_at_index i = 375 * i / 8 := by
  have h : (i : ℚ) * FFT_RESOLUTION = ((375 * i : ℕ) : ℚ) / ((8 : ℕ) : ℚ) := by
    rw [FFT_RESOLUTION_eq]; push_cast; ring
  rw [get_bin_frequency_at_index, h, Int.floor_toNat, Nat.floor_div_nat, Nat.floor_natCast]

/-- The truncated frequency of the floor bin never exceeds the frequency, so
the `usize` subtraction in the source never underflows. -/
theorem bin_frequency_le (f : ℕ) :
    get_bin_frequency_at_index (min_bin_index f) ≤ f := by
  rw [get_bin_frequency_at_index_eq_div, min_bin_index_eq_div]; omega

/-- A frequency sits at most 47 integer Hz above the truncated frequency of
its floor bin (the bin step is 46.875 Hz and the truncation loses up to 7/8). -/
theorem sub_bin_frequency_le (f : ℕ) :
    f - get_bin_frequency_at_index (min_bin_index f) ≤ 47 := by
  rw [get_bin_frequency_at_index_eq_div, min_bin_index_eq_div]; omega

theorem position_between_bins_nonneg (f : ℕ) : 0 ≤ position_between_bins f :=
  div_nonneg (Nat.cast_nonneg _) FFT_RESOLUTION_pos.le

/-- The interpolation position can exceed 1, but only by `1/375`. -/
theorem position_between_bins_le (f : ℕ) : position_between_bins f ≤ 376 / 375 := by
  unfold position_between_bins
  rw [FFT_RESOLUTION_eq, div_le_iff₀ (by norm_num : (0 : ℚ) < 375 / 8)]
  have h : ((f - get_bin_frequency_at_index (min_bin_index f) : ℕ) : ℚ) ≤ 47 := by
    exact_mod_cast Nat.cast_le.mpr (sub_bin_frequency_le f)
  linarith [h]

theorem min_bin_index_mono {a b : ℕ} (h : a ≤ b) : min_bin_index a ≤ min_bin_index b := by
  rw [min_bin_index_eq_div, min_bin_index_eq_div]; omega

/-- The saturating float-to-usize cast agrees with the plain floor bin index
for in-range frequencies. -/
theorem castUsize_eq {n : ℕ} (h : n < USIZE_MOD) :
    castUsize ((n : ℚ) / FFT_RESOLUTION) = min_bin_index n := by
  unfold castUsize min_bin_index
  have h1 : (n : ℚ) / FFT_RESOLUTION ≤ (n : ℚ) :=
    div_le_self (Nat.cast_nonneg _) one_le_FFT_RESOLUTION
  have h2 : ⌊(n : ℚ) / FFT_RESOLUTION⌋ ≤ (n : ℤ) := by
    calc ⌊(n : ℚ) / FFT_RESOLUTION⌋ ≤ ⌊(n : ℚ)⌋ := Int.floor_le_floor h1
    _ = (n : ℤ) := Int.floor_natCast n
  unfold USIZE_MOD at h ⊢
  omega

/-- Wrapping `usize` subtraction of one agrees with truncating subtraction on
a nonempty in-range length. -/
theorem wrapSub_one_eq {n : ℕ} (h1 : 1 ≤ n) (h2 : n ≤ USIZE_MOD) :
    (n + USIZE_MOD - 1) % USIZE_MOD = n - 1 := by
  unfold USIZE_MOD at h2 ⊢
  omega

/-! ### Characterizations of the band queries -/

/-- Per-frequency amplitude estimate as a total function: what the source
computes once the `unwrap_or(0.0)` at the call site in
`get_frequency_interval_average_amplitude` is folded in — the weight
`position_between_bins` multiplies the FLOOR bin and `1 - position` the CEIL
bin, and the position is measured from the truncated integer bin frequency. -/
def interpolatedAmplitude (r : FftResult ℚ) (f : ℕ) : ℚ :=
  match r.raw_bins[min_bin_index f]?, r.raw_bins[max_bin_index f]? with
  | some a, some b =>
      a * position_between_bins f + b * (1 - position_between_bins f)
  | _, _ => 0

theorem get_frequency_amplitude_getD (r : FftResult ℚ) (f : ℕ) :
    (get_frequency_amplitude r f).getD 0 = interpolatedAmplitude r f := by
  unfold get_frequency_amplitude interpolatedAmplitude
  cases h1 : r.raw_bins[min_bin_index f]? <;>
    cases h2 : r.raw_bins[max_bin_index f]? <;> simp [h1, h2]

theorem sum_map_range' (f : ℕ → ℚ) : ∀ (n a : ℕ),
    ((List.range' a n).map f).sum = ∑ i in Finset.range n, f (a + i)
  | 0, _ => by simp
  | n + 1, a => by
    rw [List.range'_succ, List.map_cons, List.sum_cons, sum_map_range' f n (a + 1),
      Finset.sum_range_succ']
    have h : ∀ i, a + 1 + i = a + (i + 1) := fun i => by omega
    simp only [h, Nat.add_zero]
    exact add_comm _ _

/-- The band query for a nonempty interval: mean of the per-frequency
estimates. -/
theorem gfiaa_eq_sum (r : FftResult ℚ) {min_freq max_freq : ℕ}
    (h : min_freq < max_freq) :
    get_frequency_interval_average_amplitude r min_freq max_freq =
      some ((∑ f in Finset.Ico min_freq max_freq, interpolatedAmplitude r f)
        / ((max_freq - min_freq : ℕ) : ℚ)) := by
  unfold get_frequency_interval_average_amplitude
  rw [if_neg (by omega)]
  congr 2
  simp only [get_frequency_amplitude_getD]
  rw [sum_map_range', Finset.sum_Ico_eq_sum_range]

/-! ### Claim C1 -/

/-- The claim C1 formula: standard linear interpolation, with weight `1 - t`
on the floor bin and `t` on the ceil bin, where `t` is the exact fractional
position `f/res - ⌊f/res⌋` of the frequency between its bracketing bins. -/
def claimedBandAmplitude (r : FftResult ℚ) (min_freq max_freq : ℕ) : ℚ :=
  (∑ f in Finset.Ico min_freq max_freq,
    (r.raw_bins.getD (min_bin_index f) 0
        * (1 - ((f : ℚ) / FFT_RESOLUTION - ⌊(f : ℚ) / FFT_RESOLUTION⌋))
      + r.raw_bins.getD (max_bin_index f) 0
        * ((f : ℚ) / FFT_RESOLUTION - ⌊(f : ℚ) / FFT_RESOLUTION⌋)))
    / ((max_freq - min_freq : ℕ) : ℚ)

section ConcreteC1

attribute [local semireducible] Rat.mul Rat.inv Rat.add Rat.sub

/-- C1 counterexample: on the frame `[0, 1, 0]` and the band `[50, 51)` the
source returns `32/375`, while the claimed per-frequency linear interpolation
`bins[floor]·(1-t) + bins[ceil]·t` (here `t = 50/46.875 - 1 = 1/15`) gives
`14/15`: the source applies the weights swapped, and measures the position
from the truncated integer bin frequency. -/
theorem band_amplitude_not_claimed_lerp :
    get_frequency_interval_average_amplitude ⟨[0, 1, 0]⟩ 50 51 ≠
      some (claimedBandAmplitude ⟨[0, 1, 0]⟩ 50 51) := by decide

end ConcreteC1

/-- C1 (amended): for `min_freq < max_freq` the band amplitude is the mean,
over integer frequencies in `[min_freq, max_freq)`, of the estimate
`bins[floor]·pos + bins[ceil]·(1-pos)` — the interpolation weights swapped
relative to the claim — where `pos` is the distance from the frequency to the
TRUNCATED integer frequency of the floor bin, divided by the bin resolution;
frequencies with an out-of-range bracketing bin contribute 0. -/
theorem band_amplitude_eq_swapped_interpolation (r : FftResult ℚ)
    {min_freq max_freq : ℕ} (h : min_freq < max_freq) :
    get_frequency_interval_average_amplitude r min_freq max_freq =
      some ((∑ f in Finset.Ico min_freq max_freq, interpolatedAmplitude r f)
        / ((max_freq - min_freq : ℕ) : ℚ)) :=
  gfiaa_eq_sum r h

/-- Witness for C1 at the concrete frame `[0, 1, 0]` and band `[50, 51)`. -/
theorem band_amplitude_eq_swapped_interpolation_witness :
    50 < 51 ∧
      get_frequency_interval_average_amplitude ⟨[0, 1, 0]⟩ 50 51 =
        some ((∑ f in Finset.Ico 50 51, interpolatedAmplitude ⟨[0, 1, 0]⟩ f)
          / ((51 - 50 : ℕ) : ℚ)) :=
  ⟨by norm_num, band_amplitude_eq_swapped_interpolation ⟨[0, 1, 0]⟩ (by norm_num)⟩

/-! ### Claim C2 -/

section ConcreteC2

attribute [local semireducible] Rat.mul Rat.inv Rat.add Rat.sub

/-- C2 counterexample: on the frame `[1, 1, 1]` with bounds 0 and 100 Hz the
resolved indices are 0 and 2, the closed index range holds 3 bins summing to
3, and the claimed mean over `high_index - low_index + 1 = 3` bins would be 1;
the source divides by `high_index - low_index = 2` and returns `3/2`. -/
theorem range_average_not_closed_range_mean :
    get_frequency_interval_average ⟨[1, 1, 1]⟩ 0 100 = some (3 / 2) ∧
      (3 / 2 : ℚ) ≠ (1 + 1 + 1) / ((2 - 0 + 1 : ℕ) : ℚ) := by decide

end ConcreteC2

/-- C2 (amended): for a nonempty published frame (and `usize`-range inputs),
`get_frequency_interval_average` resolves the bounds to bin indices — the
high one clamped to the last valid index — returns 0 unless the low index is
strictly below the high index, and otherwise returns the sum of the raw bins
in the closed index range `[low_index, high_index]` divided by
`high_index - low_index` (one less than the number of bins in the range),
without interpolation. -/
theorem range_average_characterization (r : FftResult ℚ) (low high : ℕ)
    (hne : r.raw_bins ≠ []) (hlen : r.raw_bins.length ≤ USIZE_MOD)
    (hlow : low < USIZE_MOD) (hhigh : high < USIZE_MOD) :
    get_frequency_interval_average r low high =
      if min (min_bin_index high) (r.raw_bins.length - 1) ≤ min_bin_index low
      then some 0
      else some ((((r.raw_bins.drop (min_bin_index low)).take
            (min (min_bin_index high) (r.raw_bins.length - 1) + 1 - min_bin_index low)).sum)
          / ((min (min_bin_index high) (r.raw_bins.length - 1) - min_bin_index low : ℕ) : ℚ)) := by
  have hpos : 0 < r.raw_bins.length := List.length_pos.mpr hne
  unfold get_frequency_interval_average
  rw [castUsize_eq hlow, castUsize_eq hhigh, wrapSub_one_eq hpos hlen]
  by_cases hcase : min (min_bin_index high) (r.raw_bins.length - 1) ≤ min_bin_index low
  · rw [if_pos hcase, if_pos hcase]
  · rw [if_neg hcase, if_neg hcase,
      if_pos (by omega : min (min_bin_index high) (r.raw_bins.length - 1) + 1 ≤ r.raw_bins.length)]

/-- Witness for C2 at the concrete frame `[1, 1, 1]` with bounds 0 and 100. -/
theorem range_average_characterization_witness :
    (([1, 1, 1] : List ℚ) ≠ [] ∧ ([1, 1, 1] : List ℚ).length ≤ USIZE_MOD ∧
      0 < USIZE_MOD ∧ 100 < USIZE_MOD) ∧
    get_frequency_interval_average ⟨[1, 1, 1]⟩ 0 100 =
      if min (min_bin_index 100) ((FftResult.mk [1, 1, 1] : FftResult ℚ).raw_bins.length - 1)
          ≤ min_bin_index 0
      then some 0
      else some (((((FftResult.mk [1, 1, 1] : FftResult ℚ).raw_bins.drop (min_bin_index 0)).take
            (min (min_bin_index 100) ((FftResult.mk [1, 1, 1] : FftResult ℚ).raw_bins.length - 1)
              + 1 - min_bin_index 0)).sum)
          / ((min (min_bin_index 100)
                ((FftResult.mk [1, 1, 1] : FftResult ℚ).raw_bins.length - 1)
              - min_bin_index 0 : ℕ) : ℚ)) :=
  ⟨⟨by simp, by norm_num [USIZE_MOD], by norm_num [USIZE_MOD], by norm_num [USIZE_MOD]⟩,
    range_average_characterization ⟨[1, 1, 1]⟩ 0 100 (by simp) (by norm_num [USIZE_MOD])
      (by norm_num [USIZE_MOD]) (by norm_num [USIZE_MOD])⟩

/-! ### Claim C3 -/

/-- An interval lying entirely past the published bins averages only
`unwrap_or(0.0)` contributions, so the band amplitude is 0. -/
theorem gfiaa_past_range_zero (r : FftResult ℚ) {min_freq max_freq : ℕ}
    (h : min_freq < max_freq) (hpast : r.raw_bins.length ≤ min_bin_index min_freq) :
    get_frequency_interval_average_amplitude r min_freq max_freq = some 0 := by
  unfold get_frequency_interval_average_amplitude
  rw [if_neg (by omega)]
  have hz : ∀ f ∈ List.range' min_freq (max_freq - min_freq),
      (get_frequency_amplitude r f).getD 0 = (fun _ : ℕ => (0 : ℚ)) f := by
    intro f hf
    have hge : min_freq ≤ f := (List.mem_range'_1.mp hf).1
    have hlen : r.raw_bins.length ≤ min_bin_index f :=
      le_trans hpast (min_bin_index_mono hge)
    have hnone : r.raw_bins[min_bin_index f]? = none := List.getElem?_eq_none hlen
    simp [get_frequency_amplitude, hnone]
  rw [List.map_congr_left hz]
  simp

/-- C3 (amended): an interval lying entirely past the valid bin range (with
`min_hz < max_hz`) yields 0, and a frame with no bins makes all three
convenience wrappers return 0; but a DEGENERATE interval (`min_hz = max_hz`)
makes the source compute `0.0 / 0.0 = NaN` (modelled `none`) — `Some(NaN)`,
not 0, slips through the callers' `unwrap_or(0.0)`. -/
theorem band_amplitude_degenerate_and_past_range (r : FftResult ℚ)
    (min_freq max_freq : ℕ) :
    (min_freq = max_freq →
      get_frequency_interval_average_amplitude r min_freq max_freq = none)
    ∧ (min_freq < max_freq → r.raw_bins.length ≤ min_bin_index min_freq →
      get_frequency_interval_average_amplitude r min_freq max_freq = some 0)
    ∧ (r.raw_bins = [] →
      get_low_frequency_amplitude r = 0 ∧ get_mid_frequency_amplitude r = 0
        ∧ get_high_frequency_amplitude r = 0) := by
  refine ⟨?_, fun h1 h2 => gfiaa_past_range_zero r h1 h2, ?_⟩
  · intro h
    unfold get_frequency_interval_average_amplitude
    rw [if_pos (by omega)]
  · intro h
    have hz : r.raw_bins.length ≤ min_bin_index 0 := by simp [h]
    have h100 : r.raw_bins.length ≤ min_bin_index 100 :=
      le_trans hz (min_bin_index_mono (by omega))
    have h1000 : r.raw_bins.length ≤ min_bin_index 1000 :=
      le_trans hz (min_bin_index_mono (by omega))
    refine ⟨?_, ?_, ?_⟩
    · rw [get_low_frequency_amplitude, gfiaa_past_range_zero r (by omega) hz]; rfl
    · rw [get_mid_frequency_amplitude, gfiaa_past_range_zero r (by omega) h100]; rfl
    · rw [get_high_frequency_amplitude, gfiaa_past_range_zero r (by omega) h1000]; rfl

section ConcreteC3

attribute [local semireducible] Rat.mul Rat.inv Rat.add Rat.sub

/-- C3 counterexample: on the degenerate interval `[100, 100)` the source
returns `Some(0.0/0.0) = Some(NaN)` (modelled `none`), not 0. -/
theorem band_amplitude_degenerate_not_zero :
    get_frequency_interval_average_amplitude ⟨[1, 1, 1]⟩ 100 100 = none ∧
      (none : Option ℚ) ≠ some 0 := by decide

/-- Witness for C3: a degenerate interval, an interval past the three bins of
a short frame, and the wrappers on an empty frame. -/
theorem band_amplitude_degenerate_and_past_range_witness :
    get_frequency_interval_average_amplitude ⟨[1, 1, 1]⟩ 200 200 = none ∧
    get_frequency_interval_average_amplitude ⟨[1, 1, 1]⟩ 1000 1001 = some 0 ∧
    (get_low_frequency_amplitude ⟨[]⟩ = 0 ∧ get_mid_frequency_amplitude ⟨[]⟩ = 0
      ∧ get_high_frequency_amplitude ⟨[]⟩ = 0) :=
  ⟨(band_amplitude_degenerate_and_past_range ⟨[1, 1, 1]⟩ 200 200).1 rfl,
    (band_amplitude_degenerate_and_past_range ⟨[1, 1, 1]⟩ 1000 1001).2.1 (by norm_num)
      (by rw [min_bin_index_eq_div]; norm_num),
    (band_amplitude_degenerate_and_past_range ⟨[]⟩ 0 0).2.2 rfl⟩

end ConcreteC3

/-! ### Claim C9 -/

/-- Lower bound on a single per-frequency estimate over a frame of bins in
`[0, B]`: the estimate is at least `-(1/375)·B` (it can dip below 0 exactly
because the interpolation position can exceed 1 by up to 1/375). -/
theorem interpolatedAmplitude_lower_bound (r : FftResult ℚ) {B : ℚ} (hB : 0 ≤ B)
    (hbins : ∀ b ∈ r.raw_bins, 0 ≤ b ∧ b ≤ B) (f : ℕ) :
    -(1 / 375) * B ≤ interpolatedAmplitude r f := by
  unfold interpolatedAmplitude
  cases h1 : r.raw_bins[min_bin_index f]? with
  | none => simp; nlinarith
  | some a =>
    cases h2 : r.raw_bins[max_bin_index f]? with
    | none => simp; nlinarith
    | some b =>
      have ha := hbins a (List.getElem?_mem h1)
      have hb := hbins b (List.getElem?_mem h2)
      have hp0 := position_between_bins_nonneg f
      have hp1 := position_between_bins_le f
      rcases le_or_lt (position_between_bins f) 1 with hp | hp
      · have g1 : 0 ≤ a * position_between_bins f := mul_nonneg ha.1 hp0
        have g2 : 0 ≤ b * (1 - position_between_bins f) :=
          mul_nonneg hb.1 (by linarith)
        nlinarith
      · have g1 : 0 ≤ a * position_between_bins f := mul_nonneg ha.1 hp0
        have g2 : B * (1 - position_between_bins f) ≤
            b * (1 - position_between_bins f) :=
          mul_le_mul_of_nonpos_right hb.2 (by linarith)
        have g3 : B * (-(1 / 375)) ≤ B * (1 - position_between_bins f) :=
          mul_le_mul_of_nonneg_left (by linarith) hB
        nlinarith

/-- C9 (amended): for `0 ≤ min < max ≤ 24000` and a published frame whose
bins all lie in `[0, B]`, the band amplitude is a finite value bounded below
by `-(1/375)·B`. It is NOT always non-negative: the interpolation position
can exceed 1, putting a small negative weight on the ceil bin. -/
theorem band_amplitude_finite_lower_bound (r : FftResult ℚ)
    (min_freq max_freq : ℕ) (B : ℚ) (h1 : min_freq < max_freq)
    (_hnyquist : max_freq ≤ 24000) (hB : 0 ≤ B)
    (hbins : ∀ b ∈ r.raw_bins, 0 ≤ b ∧ b ≤ B) :
    ∃ q, get_frequency_interval_average_amplitude r min_freq max_freq = some q
      ∧ -(1 / 375) * B ≤ q := by
  refine ⟨_, gfiaa_eq_sum r h1, ?_⟩
  have hcount : (0 : ℚ) < ((max_freq - min_freq : ℕ) : ℚ) := by
    have hn : 0 < max_freq - min_freq := by omega
    exact_mod_cast hn
  rw [le_div_iff₀ hcount]
  have hsum := Finset.card_nsmul_le_sum (Finset.Ico min_freq max_freq)
    (fun f => interpolatedAmplitude r f) (-(1 / 375) * B)
    (fun f _ => interpolatedAmplitude_lower_bound r hB hbins f)
  rw [Nat.card_Ico, nsmul_eq_mul] at hsum
  calc -(1 / 375) * B * ((max_freq - min_freq : ℕ) : ℚ)
      = ((max_freq - min_freq : ℕ) : ℚ) * (-(1 / 375) * B) := by ring
    _ ≤ _ := hsum

section ConcreteC9

attribute [local semireducible] Rat.mul Rat.inv Rat.add Rat.sub

/-- C9 counterexample: the frame `[0, 0, 1]` has non-negative bins and
`93 < 94 ≤ 24000`, yet the band amplitude over `[93, 94)` is `-1/375 < 0`:
frequency 93 resolves to floor bin 1 (truncated frequency 46), giving
interpolation position `47/46.875 > 1` and hence a negative weight on bin 2. -/
theorem band_amplitude_can_be_negative :
    get_frequency_interval_average_amplitude ⟨[0, 0, 1]⟩ 93 94 = some (-(1 / 375)) ∧
      (∀ b ∈ ([0, 0, 1] : List ℚ), 0 ≤ b) ∧ (-(1 / 375) : ℚ) < 0 := by decide

end ConcreteC9

/-- Witness for C9 at the frame `[1]`, band `[0, 1)`, bound `B = 1`. -/
theorem band_amplitude_finite_lower_bound_witness :
    ∃ q, get_frequency_interval_average_amplitude ⟨[1]⟩ 0 1 = some q
      ∧ -(1 / 375) * 1 ≤ q :=
  band_amplitude_finite_lower_bound ⟨[1]⟩ 0 1 1 (by norm_num) (by norm_num) (by norm_num)
    (by intro b hb; simp only [List.mem_singleton] at hb; norm_num [hb])

/-! ### Claim C10 -/

/-- C10: on the default (empty) published frame, any bounds that resolve to
`low_index < high_index` make `get_frequency_interval_average` panic — the
`usize` subtraction `len() - 1` wraps and the slice `[low..=high]` is out of
bounds — instead of returning 0; on any nonempty frame (of `usize`-sized
length) the function is total. -/
theorem range_average_empty_bins_panics :
    (∀ low high : ℕ,
      castUsize ((low : ℚ) / FFT_RESOLUTION) < castUsize ((high : ℚ) / FFT_RESOLUTION) →
      get_frequency_interval_average ⟨[]⟩ low high = none)
    ∧ (∀ (r : FftResult ℚ) (low high : ℕ), r.raw_bins ≠ [] →
      r.raw_bins.length ≤ USIZE_MOD →
      (get_frequency_interval_average r low high).isSome = true) := by
  constructor
  · intro low high hlt
    unfold get_frequency_interval_average
    have hwrap : ((FftResult.mk ([] : List ℚ)).raw_bins.length + USIZE_MOD - 1) % USIZE_MOD
        = USIZE_MOD - 1 := by
      simp [USIZE_MOD]
    rw [hwrap]
    have hle : castUsize ((high : ℚ) / FFT_RESOLUTION) ≤ USIZE_MOD - 1 := min_le_right _ _
    rw [min_eq_left hle, if_neg (by omega)]
    simp
  · intro r low high hne hlen
    have hpos : 0 < r.raw_bins.length := List.length_pos.mpr hne
    unfold get_frequency_interval_average
    rw [wrapSub_one_eq hpos hlen]
    by_cases hcase : min (castUsize ((high : ℚ) / FFT_RESOLUTION)) (r.raw_bins.length - 1)
        ≤ castUsize ((low : ℚ) / FFT_RESOLUTION)
    · rw [if_pos hcase]; rfl
    · rw [if_neg hcase, if_pos (by omega)]; rfl

section ConcreteC10

attribute [local semireducible] Rat.mul Rat.inv Rat.add Rat.sub

/-- Witness for C10: bounds 0 and 47 Hz resolve to indices 0 and 1 on the
empty frame (panic), and the one-bin frame is total. -/
theorem range_average_empty_bins_panics_witness :
    get_frequency_interval_average ⟨[]⟩ 0 47 = none ∧
      (get_frequency_interval_average ⟨[1]⟩ 0 47).isSome = true :=
  ⟨range_average_empty_bins_panics.1 0 47 (by decide),
    range_average_empty_bins_panics.2 ⟨[1]⟩ 0 47 (by decide) (by norm_num [USIZE_MOD])⟩

end ConcreteC10

/-! ### Spectral analyzer state and FFT pipeline (audio_processing.rs 81–141) -/

/-- audio_processing.rs lines 81–89. The processor state: the fixed ring
buffer of the most recent `FFT_SIZE` samples (oldest first, the iteration
order of the dasp `Fixed` ring buffer), the pending samples of the sample
queue (`ringbuf::HeapConsumer`, oldest first) and the published spectral
frame behind the `RwLock`. The scratch fields `tmp_vec`,
`fft_compute_buffer` and `fft_window_buffer` are intermediates whose final
contents feed `fft_result` and are not kept in the model. Samples are exact
rationals; the published bins are reals (the Hann window is transcendental). -/
structure AudioSignalProcessor where
  audio_sample_buffer : List ℚ
  audio_sample_rx : List ℚ
  fft_result : FftResult ℝ

/-- dasp_ring_buffer::Fixed::push (external crate): append at the back,
evicting the front (oldest) element. -/
def ringPush (buf : List ℚ) (x : ℚ) : List ℚ := buf.drop 1 ++ [x]

def ringPushAll (buf : List ℚ) : List ℚ → List ℚ
  | [] => buf
  | x :: xs => ringPushAll (ringPush buf x) xs

/-- audio_processing.rs lines 92–103: construction; the ring buffer starts as
`FFT_SIZE` zeros, the published frame is the default (empty) `FftResult`. -/
def AudioSignalProcessor.new (audio_rx : List ℚ) : AudioSignalProcessor where
  audio_sample_buffer := List.replicate FFT_SIZE 0
  audio_sample_rx := audio_rx
  fft_result := ⟨[]⟩

/-- audio_processing.rs lines 106–109: `pop_slice` into the `FFT_SIZE`-sized
`tmp_vec` drains `min available FFT_SIZE` samples from the queue; each
drained sample is pushed into the ring buffer, oldest first. -/
def ingestStep (st : AudioSignalProcessor) : AudioSignalProcessor :=
  let sample_count := min st.audio_sample_rx.length FFT_SIZE
  { st with
    audio_sample_buffer :=
      ringPushAll st.audio_sample_buffer (st.audio_sample_rx.take sample_count)
    audio_sample_rx := st.audio_sample_rx.drop sample_count }

/-- dasp_window::Hanning::window (external crate): the Hann window value at a
phase, `0.5 · (1 - cos(2π · phase))`. -/
noncomputable def hanningWindow (phase : ℝ) : ℝ :=
  0.5 * (1 - Real.cos (2 * Real.pi * phase))

/-- audio_processing.rs lines 111–126: the complex FFT input. The dasp signal
built by `from_iter` yields the ring-buffer elements (equilibrium 0 once
exhausted, which `.take(FFT_SIZE)` makes unreachable for a full buffer);
`to_sample` is the identity on f32 and `scale_amp(1.0)` multiplies by 1.0,
kept as a literal factor; entry `index` is scaled by
`Hanning::window(index / (FFT_SIZE - 1))` and has zero imaginary part. -/
noncomputable def codeWindowBuffer (buf : List ℚ) : List ℂ :=
  (List.range FFT_SIZE).map fun index =>
    Complex.ofReal ((1.0 * ((buf.getD index 0 : ℚ) : ℝ))
      * hanningWindow ((index : ℝ) / ((FFT_SIZE : ℝ) - 1)))

/-- rustfft forward FFT (external crate), as the unnormalized discrete
Fourier transform: output `k` is `∑ n, x[n] · exp(-2πi·k·n/N)`. -/
noncomputable def dft (x : List ℂ) : List ℂ :=
  (List.range x.length).map fun k =>
    (x.enum.map fun p =>
      p.2 * Complex.exp (-(2 * Real.pi * k * p.1 / x.length) * Complex.I)).sum

/-- audio_processing.rs lines 105–140: drain the queue into the ring buffer,
Hann-window the buffer into the complex FFT input, run the forward FFT in
place, and replace the published frame (under the write lock) with the
squared magnitude of each output bin divided by `√FFT_SIZE`. -/
noncomputable def compute_fft (st : AudioSignalProcessor) : AudioSignalProcessor :=
  let st1 := ingestStep st
  { st1 with
    fft_result :=
      ⟨(dft (codeWindowBuffer st1.audio_sample_buffer)).map
        (fun bin => Complex.normSq bin / Real.sqrt ((FFT_SIZE : ℕ) : ℝ))⟩ }

/-! ### Claim C6 -/

/-- The spec formula for C6: the Hann window
`w(i) = 0.5 - 0.5·cos(2πi/(N-1))`, `N = FFT_SIZE`, applied pointwise to the
history buffer. -/
noncomputable def specHannWindowed (buf : List ℚ) : List ℂ :=
  (List.range FFT_SIZE).map fun i =>
    Complex.ofReal (((buf.getD i 0 : ℚ) : ℝ)
      * (0.5 - 0.5 * Real.cos (2 * Real.pi * (i : ℝ) / ((FFT_SIZE : ℝ) - 1))))

/-- C6: each `compute_fft` call applies the Hann window
`w(i) = 0.5 - 0.5·cos(2πi/(N-1))`, `N = 1024`, to the current (post-drain)
history buffer, takes the forward FFT of size `N`, and replaces the published
spectral frame wholesale with the squared magnitude of each FFT output
divided by `√N`. (The `RwLock` write guard around the replacement is a
concurrency artifact outside the model; the replacement is a single state
update here.) -/
theorem compute_fft_publishes_hann_dft (st : AudioSignalProcessor) :
    (compute_fft st).fft_result =
      ⟨(dft (specHannWindowed (ingestStep st).audio_sample_buffer)).map
        (fun z => Complex.normSq z / Real.sqrt ((FFT_SIZE : ℕ) : ℝ))⟩ := by
  have hwin : ∀ buf : List ℚ, codeWindowBuffer buf = specHannWindowed buf := by
    intro buf
    unfold codeWindowBuffer specHannWindowed hanningWindow
    refine List.map_congr_left ?_
    intro i _
    congr 1
    have harg : 2 * Real.pi * ((i : ℝ) / ((FFT_SIZE : ℝ) - 1))
        = 2 * Real.pi * (i : ℝ) / ((FFT_SIZE : ℝ) - 1) := by ring
    rw [← harg]
    ring
  show FftResult.mk _ = FftResult.mk _
  rw [hwin]

/-! ### Claim C8 -/

/-- Pushing a batch no longer than the buffer shifts out exactly that many
oldest elements and appends the batch. -/
theorem ringPushAll_eq : ∀ (l buf : List ℚ), l.length ≤ buf.length →
    ringPushAll buf l = buf.drop l.length ++ l
  | [], buf, _ => by simp [ringPushAll]
  | x :: xs, buf, h => by
    have hx : xs.length + 1 ≤ buf.length := by simpa using h
    have hlen : xs.length ≤ (ringPush buf x).length := by
      simp only [ringPush, List.length_append, List.length_drop, List.length_singleton]
      omega
    rw [ringPushAll, ringPushAll_eq xs (ringPush buf x) hlen]
    have hd : (ringPush buf x).drop xs.length = buf.drop (1 + xs.length) ++ [x] := by
      rw [ringPush, List.drop_append_of_le_length (by rw [List.length_drop]; omega),
        List.drop_drop]
    rw [hd]
    have hc : (x :: xs).length = 1 + xs.length := by simp; omega
    rw [hc]
    simp [List.append_assoc]

/-- C8: the history buffer holds exactly `FFT_SIZE` samples at construction
(all zeros) and after every `compute_fft`, no matter how many samples
`k = min available FFT_SIZE` were drained; the drained samples overwrite the
`k` oldest buffer entries. -/
theorem history_buffer_exact_size :
    (∀ rx : List ℚ, (AudioSignalProcessor.new rx).audio_sample_buffer.length = FFT_SIZE)
    ∧ (∀ st : AudioSignalProcessor, st.audio_sample_buffer.length = FFT_SIZE →
      (compute_fft st).audio_sample_buffer.length = FFT_SIZE
      ∧ (compute_fft st).audio_sample_buffer
        = st.audio_sample_buffer.drop (min st.audio_sample_rx.length FFT_SIZE)
          ++ st.audio_sample_rx.take (min st.audio_sample_rx.length FFT_SIZE)) := by
  constructor
  · intro rx
    simp [AudioSignalProcessor.new]
  · intro st h
    have hbuf : (compute_fft st).audio_sample_buffer
        = (ingestStep st).audio_sample_buffer := rfl
    have htl : (st.audio_sample_rx.take (min st.audio_sample_rx.length FFT_SIZE)).length
        = min st.audio_sample_rx.length FFT_SIZE := by
      rw [List.length_take]
      omega
    have hle : (st.audio_sample_rx.take (min st.audio_sample_rx.length FFT_SIZE)).length
        ≤ st.audio_sample_buffer.length := by
      rw [htl, h]
      omega
    have hing : (ingestStep st).audio_sample_buffer
        = st.audio_sample_buffer.drop (min st.audio_sample_rx.length FFT_SIZE)
          ++ st.audio_sample_rx.take (min st.audio_sample_rx.length FFT_SIZE) := by
      show ringPushAll st.audio_sample_buffer
          (st.audio_sample_rx.take (min st.audio_sample_rx.length FFT_SIZE))
        = _
      rw [ringPushAll_eq _ _ hle, htl]
    refine ⟨?_, hbuf.trans hing⟩
    rw [hbuf, hing, List.length_append, List.length_drop, htl, h]
    omega

/-- Witness for C8 on a processor holding one pending sample. -/
theorem history_buffer_exact_size_witness :
    (AudioSignalProcessor.new [5]).audio_sample_buffer.length = FFT_SIZE ∧
    ((compute_fft (AudioSignalProcessor.new [5])).audio_sample_buffer.length = FFT_SIZE
      ∧ (compute_fft (AudioSignalProcessor.new [5])).audio_sample_buffer
        = (AudioSignalProcessor.new [5]).audio_sample_buffer.drop
            (min (AudioSignalProcessor.new [5]).audio_sample_rx.length FFT_SIZE)
          ++ (AudioSignalProcessor.new [5]).audio_sample_rx.take
            (min (AudioSignalProcessor.new [5]).audio_sample_rx.length FFT_SIZE)) :=
  ⟨history_buffer_exact_size.1 [5],
    history_buffer_exact_size.2 (AudioSignalProcessor.new [5])
      (by simp [AudioSignalProcessor.new])⟩

/-! ### Resource model (resources modules, modelled from their use in main.rs
and from the spec) and the tick scheduler (main.rs) -/

/-- Modelled from the spec: a Color is three 8-bit channels (the
`resources::color` module is not among the analyzed sources). -/
structure Color where
  r : ℕ
  g : ℕ
  b : ℕ

/-- Modelled from the spec: a color serializes to three consecutive bytes
R, G, B. -/
def Color.to_bytes (c : Color) : List ℕ := [c.r, c.g, c.b]

/-- main.rs lines 48–50: the Moody settings carry a color target. -/
structure MoodySettings where
  color : Color

/-- main.rs lines 51–54: raindrop settings carry a propagation rate and a
spawn probability. -/
structure RaindropSettings where
  rain_speed : ℤ
  drop_rate : ℚ

/-- main.rs lines 55–60: opaque script parameters (a JSON value, modelled as
an opaque string). -/
structure LuaEffectSettings where
  settings : String

/-- Modelled from the spec: effect-local ripple state (main.rs line 71); the
payload is opaque to the scheduler. -/
structure RaindropState where
  riples : List ℤ

/-- main.rs line 65. -/
structure Moody where
  id : ℤ

/-- main.rs lines 69–72. -/
structure Raindrops where
  id : ℤ
  state : RaindropState

/-- Modelled from the spec: a script-driven effect exposes
`tick(color_slice, settings) -> Result`; on success the returned slice
replaces the bound LED range, on error the slice is left unchanged (the
`resources::effects::lua` module is not among the analyzed sources). -/
structure LuaEffect where
  tickFn : List Color → LuaEffectSettings → Except String (List Color)

/-- The effect variants dispatched in main.rs lines 161–174. -/
inductive Effect where
  | moody : Moody → Effect
  | raindrop : Raindrops → Effect
  | lua : LuaEffect → Effect

/-- The settings variants (main.rs lines 61–63). -/
inductive Settings where
  | moody : MoodySettings → Settings
  | raindrop : RaindropSettings → Settings
  | lua : LuaEffectSettings → Settings

/-- The shared variant tag of the effect and settings sum types. -/
inductive VariantTag where
  | moody
  | raindrop
  | lua
deriving DecidableEq

def Effect.tag : Effect → VariantTag
  | .moody _ => .moody
  | .raindrop _ => .raindrop
  | .lua _ => .lua

def Settings.tag : Settings → VariantTag
  | .moody _ => .moody
  | .raindrop _ => .raindrop
  | .lua _ => .lua

/-- Modelled from the spec: a TCP connection owns a send queue and a
liveness flag; `data_queue.send` succeeds exactly while the transport
endpoint is alive. -/
structure TcpConnection where
  alive : Bool
  sent : List (List ℕ)

/-- main.rs line 20: the connection variants; `UsbConnection` is a unit
struct. -/
inductive Connection where
  | tcp : TcpConnection → Connection
  | usb : Connection

/-- Modelled from the spec (transport send contract): enqueue the serialized
frame, or fail when the endpoint is gone (queue closed). -/
def tcpSend (t : TcpConnection) (data : List ℕ) : Except String TcpConnection :=
  if t.alive then Except.ok { t with sent := t.sent ++ [data] }
  else Except.error "channel closed"

/-- resources::ledstrip::LedStrip, modelled from its use in main.rs: the
color buffer (one entry per LED), the effect bindings
`(effect id, inclusive LED interval)` in insertion order, and an optional
bound connection id. -/
structure LedStrip where
  colors : List Color
  effects : List (ℤ × ℕ × ℕ)
  connection_id : Option ℤ

/-- `HashMap<i32, _>` access, modelled as an association list; the scheduler
uses only keyed lookup, in-place update through `get_mut`, and removal. -/
def mapLookup {β : Type} : List (ℤ × β) → ℤ → Option β
  | [], _ => none
  | (k, v) :: rest, key => if k = key then some v else mapLookup rest key

/-- Mutation through `get_mut`: replaces the value at an existing key. -/
def mapUpdate {β : Type} : List (ℤ × β) → ℤ → β → List (ℤ × β)
  | [], _, _ => []
  | (k, v) :: rest, key, nv =>
    if k = key then (k, nv) :: rest else (k, v) :: mapUpdate rest key nv

/-- `HashMap::remove`. -/
def mapErase {β : Type} : List (ℤ × β) → ℤ → List (ℤ × β)
  | [], _ => []
  | (k, v) :: rest, key =>
    if k = key then mapErase rest key else (k, v) :: mapErase rest key

/-- Rust `colors.get_mut(a..=b)`: the slice of the inclusive range when it is
in bounds, `None` otherwise. -/
def sliceGet (colors : List Color) (a b : ℕ) : Option (List Color) :=
  if a ≤ b + 1 ∧ b + 1 ≤ colors.length then
    some ((colors.drop a).take (b + 1 - a))
  else none

/-- Writing an updated slice back over the inclusive range `a..=b` (the Rust
update happens in place through the mutable slice). -/
def setSlice (colors : List Color) (a b : ℕ) (s : List Color) : List Color :=
  colors.take a ++ s ++ colors.drop (b + 1)

/-- Modelled from the spec: the per-variant update operations `update_moody`
and `update_raindrop` (their modules are not among the analyzed sources).
Each computes new colors for the bound slice only; the raindrop update also
evolves its effect-local state. The scheduler theorems hold for every
implementation. -/
structure EffectImpls where
  updateMoody : List Color → MoodySettings → List Color
  updateRaindrop :
    List Color → RaindropSettings → RaindropState → List Color × RaindropState

/-- main.rs lines 149–174: one effect binding of one strip. The `expect`
panics (slice out of bounds, unknown effect id, unknown setting id) and the
`panic!("Effect does not match settings")` arm are `none`; a failing Lua tick
is logged (`eprintln`) and leaves the slice as it was; the raindrop arm
writes its new state back through the `get_mut` borrow. -/
def applyBinding (impls : EffectImpls) (settingsMap : List (ℤ × Settings))
    (effect_settings : List (ℤ × ℤ)) (effectMap : List (ℤ × Effect))
    (colors : List Color) (eid : ℤ) (iv : ℕ × ℕ) :
    Option (List (ℤ × Effect) × List Color) := do
  let leds ← sliceGet colors iv.1 iv.2
  let effect ← mapLookup effectMap eid
  let setting_id ← mapLookup effect_settings eid
  let setting := mapLookup settingsMap setting_id
  match effect, setting with
  | .moody _, some (.moody ms) =>
    some (effectMap, setSlice colors iv.1 iv.2 (impls.updateMoody leds ms))
  | .raindrop rd, some (.raindrop rs) =>
    let result := impls.updateRaindrop leds rs rd.state
    some (mapUpdate effectMap eid (.raindrop { rd with state := result.2 }),
      setSlice colors iv.1 iv.2 result.1)
  | .lua l, some (.lua ls) =>
    match l.tickFn leds ls with
    | .ok leds2 => some (effectMap, setSlice colors iv.1 iv.2 leds2)
    | .error _ => some (effectMap, colors)
  | _, _ => none

/-- The inner binding loop of main.rs lines 149–175, in insertion order. -/
def applyBindings (impls : EffectImpls) (settingsMap : List (ℤ × Settings))
    (effect_settings : List (ℤ × ℤ)) :
    List (ℤ × ℕ × ℕ) → List (ℤ × Effect) → List Color →
      Option (List (ℤ × Effect) × List Color)
  | [], effectMap, colors => some (effectMap, colors)
  | (eid, iv) :: rest, effectMap, colors =>
    match applyBinding impls settingsMap effect_settings effectMap colors eid iv with
    | none => none
    | some (effectMap2, colors2) =>
      applyBindings impls settingsMap effect_settings rest effectMap2 colors2

/-- main.rs lines 110–138. Serialize the strip (R, G, B per LED in index
order) and enqueue on its connection. A missing connection id is an `anyhow`
error (`Except.error`, caught and logged by the caller); a failed TCP send
removes the connection from the registry and clears the strip connection id,
returning `Ok`; a USB connection hits `todo!()`, a panic (`none`). -/
def send_to_connection (ledstrip : LedStrip) (connection_id : ℤ)
    (connections : List (ℤ × Connection)) :
    Option (Except String Unit × LedStrip × List (ℤ × Connection)) :=
  match mapLookup connections connection_id with
  | none => some (Except.error "connection id does not exist", ledstrip, connections)
  | some c =>
    let data := (ledstrip.colors.map Color.to_bytes).flatten
    match c with
    | .tcp tcp_connection =>
      match tcpSend tcp_connection data with
      | .ok tcp2 =>
        some (Except.ok (), ledstrip, mapUpdate connections connection_id (.tcp tcp2))
      | .error _ =>
        some (Except.ok (), { ledstrip with connection_id := none },
          mapErase connections connection_id)
    | .usb => none

/-- main.rs lines 148–181: one strip of a tick — run all its effect bindings
in order, then dispatch when a connection is bound (a dispatch
`Except.error` is logged and otherwise ignored). -/
def processStrip (impls : EffectImpls) (settingsMap : List (ℤ × Settings))
    (effect_settings : List (ℤ × ℤ)) (effectMap : List (ℤ × Effect))
    (connections : List (ℤ × Connection)) (strip : LedStrip) :
    Option (List (ℤ × Effect) × List (ℤ × Connection) × LedStrip) :=
  match applyBindings impls settingsMap effect_settings strip.effects effectMap
      strip.colors with
  | none => none
  | some (effectMap2, colors2) =>
    let strip2 := { strip with colors := colors2 }
    match strip2.connection_id with
    | none => some (effectMap2, connections, strip2)
    | some connection_id =>
      match send_to_connection strip2 connection_id connections with
      | none => none
      | some (_result, strip3, connections2) => some (effectMap2, connections2, strip3)

/-- main.rs lines 141–183: a full scheduler tick over all strips. -/
def tick (impls : EffectImpls) (settingsMap : List (ℤ × Settings))
    (effect_settings : List (ℤ × ℤ)) :
    List LedStrip → List (ℤ × Effect) → List (ℤ × Connection) →
      Option (List LedStrip × List (ℤ × Effect) × List (ℤ × Connection))
  | [], effectMap, connections => some ([], effectMap, connections)
  | strip :: rest, effectMap, connections =>
    match processStrip impls settingsMap effect_settings effectMap connections strip with
    | none => none
    | some (effectMap2, connections2, strip2) =>
      match tick impls settingsMap effect_settings rest effectMap2 connections2 with
      | none => none
      | some (rest2, effectMap3, connections3) =>
        some (strip2 :: rest2, effectMap3, connections3)

/-- A trivial instantiation of the out-of-scope effect implementations, used
by the concrete witnesses. -/
def witnessImpls : EffectImpls where
  updateMoody := fun leds _ => leds
  updateRaindrop := fun leds _ st => (leds, st)

/-! ### Claim C4 -/

/-- Two effect registries expose the same variant tag at every key. -/
def tagEquiv (em1 em2 : List (ℤ × Effect)) : Prop :=
  ∀ k, (mapLookup em1 k).map Effect.tag = (mapLookup em2 k).map Effect.tag

theorem tagEquiv_refl (em : List (ℤ × Effect)) : tagEquiv em em := fun _ => rfl

theorem tagEquiv_trans {a b c : List (ℤ × Effect)} (h1 : tagEquiv a b)
    (h2 : tagEquiv b c) : tagEquiv a c := fun k => (h1 k).trans (h2 k)

theorem mapLookup_mapUpdate {β : Type} (m : List (ℤ × β)) (k : ℤ) (v : β) (j : ℤ) :
    mapLookup (mapUpdate m k v) j =
      if j = k then (mapLookup m k).map (fun _ => v) else mapLookup m j := by
  induction m with
  | nil => by_cases h : j = k <;> simp [mapUpdate, mapLookup, h]
  | cons p rest ih =>
    obtain ⟨a, b⟩ := p
    simp only [mapUpdate]
    by_cases h1 : a = k
    · subst h1
      simp only [if_pos rfl, mapLookup]
      by_cases h2 : j = a
      · subst h2
        simp [mapLookup]
      · have h3 : ¬ a = j := fun hh => h2 hh.symm
        simp [mapLookup, h2, h3]
    · simp only [if_neg h1, mapLookup, ih]
      by_cases h2 : j = k
      · subst h2
        have h3 : ¬ a = j := h1
        simp [h3, h1, mapLookup]
      · simp [h2]

theorem applyBinding_tagEquiv {impls : EffectImpls}
    {settingsMap : List (ℤ × Settings)} {effect_settings : List (ℤ × ℤ)}
    {effectMap : List (ℤ × Effect)} {colors : List Color} {eid : ℤ} {iv : ℕ × ℕ}
    {em2 : List (ℤ × Effect)} {colors2 : List Color}
    (h : applyBinding impls settingsMap effect_settings effectMap colors eid iv
      = some (em2, colors2)) :
    tagEquiv em2 effectMap := by
  unfold applyBinding at h
  cases hsl : sliceGet colors iv.1 iv.2 with
  | none => rw [hsl] at h; simp at h
  | some leds =>
  rw [hsl] at h
  cases he : mapLookup effectMap eid with
  | none => rw [he] at h; simp at h
  | some effect =>
  rw [he] at h
  cases hsid : mapLookup effect_settings eid with
  | none => rw [hsid] at h; simp at h
  | some sid =>
  rw [hsid] at h
  simp only [Option.bind_eq_bind, Option.some_bind] at h
  cases effect with
  | moody m =>
    cases hset : mapLookup settingsMap sid with
    | none => rw [hset] at h; simp at h
    | some s =>
      rw [hset] at h
      cases s with
      | moody ms =>
        simp only [Option.some.injEq, Prod.mk.injEq] at h
        rw [← h.1]
        exact tagEquiv_refl _
      | raindrop rs => simp at h
      | lua ls => simp at h
  | raindrop rd =>
    cases hset : mapLookup settingsMap sid with
    | none => rw [hset] at h; simp at h
    | some s =>
      rw [hset] at h
      cases s with
      | moody ms => simp at h
      | raindrop rs =>
        simp only [Option.some.injEq, Prod.mk.injEq] at h
        rw [← h.1]
        intro k
        rw [mapLookup_mapUpdate]
        by_cases hk : k = eid
        · subst hk
          rw [if_pos rfl, he]
          rfl
        · rw [if_neg hk]
      | lua ls => simp at h
  | lua l =>
    cases hset : mapLookup settingsMap sid with
    | none => rw [hset] at h; simp at h
    | some s =>
      rw [hset] at h
      cases s with
      | moody ms => simp at h
      | raindrop rs => simp at h
      | lua ls =>
        replace h : (match l.tickFn leds ls with
            | Except.ok leds2 => some (effectMap, setSlice colors iv.1 iv.2 leds2)
            | Except.error _ => some (effectMap, colors))
            = some (em2, colors2) := h
        cases ht : l.tickFn leds ls with
        | ok leds2 =>
          rw [ht] at h
          simp only [Option.some.injEq, Prod.mk.injEq] at h
          rw [← h.1]
          exact tagEquiv_refl _
        | error msg =>
          rw [ht] at h
          simp only [Option.some.injEq, Prod.mk.injEq] at h
          rw [← h.1]
          exact tagEquiv_refl _

theorem applyBinding_mismatch_none {impls : EffectImpls}
    {settingsMap : List (ℤ × Settings)} {effect_settings : List (ℤ × ℤ)}
    {effectMap : List (ℤ × Effect)} {colors : List Color} {eid : ℤ} {iv : ℕ × ℕ}
    {e2 : Effect} {sid : ℤ} {s : Settings}
    (he : mapLookup effectMap eid = some e2)
    (hsid : mapLookup effect_settings eid = some sid)
    (hs : mapLookup settingsMap sid = some s)
    (htag : s.tag ≠ e2.tag) :
    applyBinding impls settingsMap effect_settings effectMap colors eid iv = none := by
  unfold applyBinding
  cases hsl : sliceGet colors iv.1 iv.2 with
  | none => simp [hsl]
  | some leds =>
    simp only [hsl, he, hsid, hs, Option.bind_eq_bind, Option.some_bind]
    cases e2 <;> cases s <;>
      first
        | exact absurd rfl htag
        | rfl

theorem applyBindings_tagEquiv {impls : EffectImpls}
    {settingsMap : List (ℤ × Settings)} {effect_settings : List (ℤ × ℤ)} :
    ∀ (bindings : List (ℤ × ℕ × ℕ)) (em : List (ℤ × Effect)) (colors : List Color)
      (em2 : List (ℤ × Effect)) (colors2 : List Color),
      applyBindings impls settingsMap effect_settings bindings em colors
        = some (em2, colors2) → tagEquiv em2 em := by
  intro bindings
  induction bindings with
  | nil =>
    intro em colors em2 colors2 h
    simp only [applyBindings, Option.some.injEq, Prod.mk.injEq] at h
    rw [← h.1]
    exact tagEquiv_refl _
  | cons head rest ih =>
    obtain ⟨eid, iv⟩ := head
    intro em colors em2 colors2 h
    simp only [applyBindings] at h
    cases hb : applyBinding impls settingsMap effect_settings em colors eid iv with
    | none => rw [hb] at h; simp at h
    | some p =>
      obtain ⟨em3, colors3⟩ := p
      rw [hb] at h
      exact tagEquiv_trans (ih em3 colors3 em2 colors2 h) (applyBinding_tagEquiv hb)

theorem processStrip_tagEquiv {impls : EffectImpls}
    {settingsMap : List (ℤ × Settings)} {effect_settings : List (ℤ × ℤ)}
    {em : List (ℤ × Effect)} {conns : List (ℤ × Connection)} {strip : LedStrip}
    {em2 : List (ℤ × Effect)} {conns2 : List (ℤ × Connection)} {strip2 : LedStrip}
    (h : processStrip impls settingsMap effect_settings em conns strip
      = some (em2, conns2, strip2)) :
    tagEquiv em2 em := by
  unfold processStrip at h
  cases hb : applyBindings impls settingsMap effect_settings strip.effects em
      strip.colors with
  | none => rw [hb] at h; simp at h
  | some p =>
    obtain ⟨em3, colors3⟩ := p
    rw [hb] at h
    have hte : tagEquiv em3 em := applyBindings_tagEquiv _ _ _ _ _ hb
    replace h : (match ({ strip with colors := colors3 } : LedStrip).connection_id with
        | none => some (em3, conns, ({ strip with colors := colors3 } : LedStrip))
        | some connection_id =>
          match send_to_connection { strip with colors := colors3 }
              connection_id conns with
          | none => none
          | some (_result, strip3, connections2) => some (em3, connections2, strip3))
        = some (em2, conns2, strip2) := h
    cases hc : ({ strip with colors := colors3 } : LedStrip).connection_id with
    | none =>
      rw [hc] at h
      simp only [Option.some.injEq, Prod.mk.injEq] at h
      rw [← h.1]
      exact hte
    | some connection_id =>
      rw [hc] at h
      replace h : (match send_to_connection
            ⟨colors3, strip.effects, some connection_id⟩ connection_id conns with
          | none => none
          | some (_result, strip3, connections2) => some (em3, connections2, strip3))
          = some (em2, conns2, strip2) := h
      cases hsend : send_to_connection ⟨colors3, strip.effects, some connection_id⟩
          connection_id conns with
      | none => rw [hsend] at h; simp at h
      | some trip =>
        obtain ⟨r, strip3, conns3⟩ := trip
        rw [hsend] at h
        simp only [Option.some.injEq, Prod.mk.injEq] at h
        rw [← h.1]
        exact hte

theorem applyBindings_mismatch_none {impls : EffectImpls}
    {settingsMap : List (ℤ × Settings)} {effect_settings : List (ℤ × ℤ)}
    {em0 : List (ℤ × Effect)} {eid : ℤ} {iv : ℕ × ℕ} {e : Effect} {sid : ℤ}
    {s : Settings}
    (he : mapLookup em0 eid = some e)
    (hsid : mapLookup effect_settings eid = some sid)
    (hs : mapLookup settingsMap sid = some s)
    (htag : s.tag ≠ e.tag) :
    ∀ (bindings : List (ℤ × ℕ × ℕ)) (em : List (ℤ × Effect)) (colors : List Color),
      (eid, iv) ∈ bindings → tagEquiv em em0 →
      applyBindings impls settingsMap effect_settings bindings em colors = none := by
  intro bindings
  induction bindings with
  | nil => intro em colors hmem _; exact absurd hmem (List.not_mem_nil _)
  | cons head rest ih =>
    obtain ⟨eid2, iv2⟩ := head
    intro em colors hmem hequiv
    simp only [applyBindings]
    rcases List.mem_cons.mp hmem with heq | hmem2
    · injection heq with h1 h2
      subst h1
      have hle := hequiv eid
      rw [he] at hle
      cases he2 : mapLookup em eid with
      | none => rw [he2] at hle; simp at hle
      | some e2 =>
        rw [he2] at hle
        simp at hle
        have htag2 : s.tag ≠ e2.tag := by rw [hle]; exact htag
        rw [applyBinding_mismatch_none he2 hsid hs htag2]
    · cases hb : applyBinding impls settingsMap effect_settings em colors eid2 iv2 with
      | none => rfl
      | some p =>
        obtain ⟨em3, colors3⟩ := p
        exact ih em3 colors3 hmem2
          (tagEquiv_trans (applyBinding_tagEquiv hb) hequiv)

theorem tick_mismatch_none_aux {impls : EffectImpls}
    {settingsMap : List (ℤ × Settings)} {effect_settings : List (ℤ × ℤ)}
    {em0 : List (ℤ × Effect)} {strip : LedStrip} {eid : ℤ} {iv : ℕ × ℕ}
    {e : Effect} {sid : ℤ} {s : Settings}
    (hbind : (eid, iv) ∈ strip.effects)
    (he : mapLookup em0 eid = some e)
    (hsid : mapLookup effect_settings eid = some sid)
    (hs : mapLookup settingsMap sid = some s)
    (htag : s.tag ≠ e.tag) :
    ∀ (strips : List LedStrip) (em : List (ℤ × Effect))
      (conns : List (ℤ × Connection)),
      strip ∈ strips → tagEquiv em em0 →
      tick impls settingsMap effect_settings strips em conns = none := by
  intro strips
  induction strips with
  | nil => intro em conns hmem _; exact absurd hmem (List.not_mem_nil _)
  | cons head rest ih =>
    intro em conns hmem hequiv
    simp only [tick]
    rcases List.mem_cons.mp hmem with heq | hmem2
    · subst heq
      have hnone : processStrip impls settingsMap effect_settings em conns strip
          = none := by
        unfold processStrip
        rw [applyBindings_mismatch_none he hsid hs htag strip.effects em
          strip.colors hbind hequiv]
      rw [hnone]
    · cases hp : processStrip impls settingsMap effect_settings em conns head with
      | none => rfl
      | some trip =>
        obtain ⟨em2, conns2, strip2⟩ := trip
        show (match tick impls settingsMap effect_settings rest em2 conns2 with
          | none => none
          | some (rest2, effectMap3, connections3) =>
            some (strip2 :: rest2, effectMap3, connections3)) = none
        rw [ih em2 conns2 hmem2 (tagEquiv_trans (processStrip_tagEquiv hp) hequiv)]

/-- C4: whenever some strip carries an effect binding whose resolved settings
entity has a variant tag different from the effect variant tag, the whole
scheduler tick panics (`none`): the mismatch arm is `panic!` and no caller
catches it — it is never skipped or recovered from, for any effect
implementations and any other state. -/
theorem tick_aborts_on_variant_mismatch (impls : EffectImpls)
    (settingsMap : List (ℤ × Settings)) (effect_settings : List (ℤ × ℤ))
    (ledstrips : List LedStrip) (effectMap : List (ℤ × Effect))
    (connections : List (ℤ × Connection)) (strip : LedStrip) (eid : ℤ)
    (iv : ℕ × ℕ) (e : Effect) (sid : ℤ) (s : Settings)
    (hstrip : strip ∈ ledstrips) (hbind : (eid, iv) ∈ strip.effects)
    (he : mapLookup effectMap eid = some e)
    (hsid : mapLookup effect_settings eid = some sid)
    (hs : mapLookup settingsMap sid = some s)
    (htag : s.tag ≠ e.tag) :
    tick impls settingsMap effect_settings ledstrips effectMap connections
      = none :=
  tick_mismatch_none_aux hbind he hsid hs htag ledstrips effectMap connections
    hstrip (tagEquiv_refl _)

/-- Witness for C4: one strip binds effect 10, a Moody effect, whose settings
entity 0 is a Raindrop settings value. -/
theorem tick_aborts_on_variant_mismatch_witness :
    tick witnessImpls [((0 : ℤ), Settings.raindrop ⟨1, 1 / 10⟩)]
      [((10 : ℤ), (0 : ℤ))] [⟨[⟨255, 0, 0⟩], [((10 : ℤ), 0, 0)], none⟩]
      [((10 : ℤ), Effect.moody ⟨10⟩)] [] = none :=
  tick_aborts_on_variant_mismatch witnessImpls _ _ _ _ _
    ⟨[⟨255, 0, 0⟩], [((10 : ℤ), 0, 0)], none⟩ 10 (0, 0) (Effect.moody ⟨10⟩) 0
    (Settings.raindrop ⟨1, 1 / 10⟩) (List.mem_singleton_self _)
    (List.mem_singleton_self _) rfl rfl rfl (by decide)

/-! ### Claim C5 -/

theorem mapLookup_mapErase {β : Type} (m : List (ℤ × β)) (k : ℤ) :
    mapLookup (mapErase m k) k = none := by
  induction m with
  | nil => rfl
  | cons p rest ih =>
    obtain ⟨a, b⟩ := p
    by_cases h : a = k
    · simp [mapErase, h, ih]
    · simp [mapErase, mapLookup, h, ih]

/-- C5: a rejected enqueue makes the dispatcher remove the connection entity
from the registry (its id then resolves to nothing) and clear only the strip
connection id — colors, bindings and LED count are untouched; and a strip
whose connection id is unset still runs all its effect bindings on every
tick while the connection registry is never touched and no dispatch is
attempted for it. -/
theorem send_failure_unbinds_connection :
    (∀ (strip : LedStrip) (cid : ℤ) (conns : List (ℤ × Connection))
      (t : TcpConnection),
      mapLookup conns cid = some (Connection.tcp t) → t.alive = false →
      send_to_connection strip cid conns =
        some (Except.ok (), { strip with connection_id := none }, mapErase conns cid))
    ∧ (∀ (conns : List (ℤ × Connection)) (cid : ℤ),
      mapLookup (mapErase conns cid) cid = none)
    ∧ (∀ (impls : EffectImpls) (settingsMap : List (ℤ × Settings))
        (effect_settings : List (ℤ × ℤ)) (effectMap : List (ℤ × Effect))
        (conns : List (ℤ × Connection)) (strip : LedStrip),
      strip.connection_id = none →
      processStrip impls settingsMap effect_settings effectMap conns strip =
        (applyBindings impls settingsMap effect_settings strip.effects effectMap
          strip.colors).map (fun p => (p.1, conns, { strip with colors := p.2 }))) := by
  refine ⟨?_, fun conns cid => mapLookup_mapErase conns cid, ?_⟩
  · intro strip cid conns t hlook halive
    unfold send_to_connection
    rw [hlook]
    show (match tcpSend t ((List.map Color.to_bytes strip.colors).flatten) with
      | Except.ok tcp2 =>
        some (Except.ok (), strip, mapUpdate conns cid (Connection.tcp tcp2))
      | Except.error _ =>
        some (Except.ok (), { strip with connection_id := none },
          mapErase conns cid)) = _
    unfold tcpSend
    rw [halive]
    rfl
  · intro impls settingsMap effect_settings effectMap conns strip hnone
    unfold processStrip
    cases hb : applyBindings impls settingsMap effect_settings strip.effects
        effectMap strip.colors with
    | none => rfl
    | some p =>
      obtain ⟨em2, c2⟩ := p
      show (match ({ strip with colors := c2 } : LedStrip).connection_id with
          | none => some (em2, conns, ({ strip with colors := c2 } : LedStrip))
          | some connection_id =>
            match send_to_connection { strip with colors := c2 }
                connection_id conns with
            | none => none
            | some (_result, strip3, connections2) =>
              some (em2, connections2, strip3)) = _
      have hc : ({ strip with colors := c2 } : LedStrip).connection_id = none := hnone
      rw [hc]
      rfl

/-- Witness for C5: a dead TCP connection bound to a one-LED strip, and a
strip with no connection id. -/
theorem send_failure_unbinds_connection_witness :
    (mapLookup [((1 : ℤ), Connection.tcp ⟨false, []⟩)] 1
        = some (Connection.tcp ⟨false, []⟩)
      ∧ (⟨false, []⟩ : TcpConnection).alive = false
      ∧ send_to_connection ⟨[⟨1, 2, 3⟩], [], some 1⟩ 1
          [((1 : ℤ), Connection.tcp ⟨false, []⟩)] =
        some (Except.ok (),
          { (⟨[⟨1, 2, 3⟩], [], some 1⟩ : LedStrip) with connection_id := none },
          mapErase [((1 : ℤ), Connection.tcp ⟨false, []⟩)] 1))
    ∧ mapLookup (mapErase [((1 : ℤ), Connection.tcp ⟨false, []⟩)] 1) 1 = none
    ∧ processStrip witnessImpls [] [] []
        [((1 : ℤ), Connection.tcp ⟨false, []⟩)] ⟨[⟨1, 2, 3⟩], [], none⟩ =
      (applyBindings witnessImpls [] []
          ((⟨[⟨1, 2, 3⟩], [], none⟩ : LedStrip)).effects []
          ((⟨[⟨1, 2, 3⟩], [], none⟩ : LedStrip)).colors).map
        (fun p => (p.1, [((1 : ℤ), Connection.tcp ⟨false, []⟩)],
          { (⟨[⟨1, 2, 3⟩], [], none⟩ : LedStrip) with colors := p.2 })) :=
  ⟨⟨rfl, rfl,
      send_failure_unbinds_connection.1 ⟨[⟨1, 2, 3⟩], [], some 1⟩ 1
        [((1 : ℤ), Connection.tcp ⟨false, []⟩)] ⟨false, []⟩ rfl rfl⟩,
    send_failure_unbinds_connection.2.1 [((1 : ℤ), Connection.tcp ⟨false, []⟩)] 1,
    send_failure_unbinds_connection.2.2 witnessImpls [] [] []
      [((1 : ℤ), Connection.tcp ⟨false, []⟩)] ⟨[⟨1, 2, 3⟩], [], none⟩ rfl⟩

/-! ### Claim C7 -/

theorem applyBinding_lua_error {impls : EffectImpls}
    {settingsMap : List (ℤ × Settings)} {effect_settings : List (ℤ × ℤ)}
    {effectMap : List (ℤ × Effect)} {colors : List Color} {eid sid : ℤ}
    {iv : ℕ × ℕ} {l : LuaEffect} {ls : LuaEffectSettings} {leds : List Color}
    {msg : String}
    (hslice : sliceGet colors iv.1 iv.2 = some leds)
    (he : mapLookup effectMap eid = some (Effect.lua l))
    (hsid : mapLookup effect_settings eid = some sid)
    (hs : mapLookup settingsMap sid = some (Settings.lua ls))
    (herr : l.tickFn leds ls = Except.error msg) :
    applyBinding impls settingsMap effect_settings effectMap colors eid iv
      = some (effectMap, colors) := by
  unfold applyBinding
  simp only [hslice, he, hsid, hs, Option.bind_eq_bind, Option.some_bind]
  rw [herr]

theorem applyBindings_lua_error_skip {impls : EffectImpls}
    {settingsMap : List (ℤ × Settings)} {effect_settings : List (ℤ × ℤ)}
    {effectMap : List (ℤ × Effect)} {colors : List Color} {eid sid : ℤ}
    {iv : ℕ × ℕ} {l : LuaEffect} {ls : LuaEffectSettings} {leds : List Color}
    {msg : String}
    (hslice : sliceGet colors iv.1 iv.2 = some leds)
    (he : mapLookup effectMap eid = some (Effect.lua l))
    (hsid : mapLookup effect_settings eid = some sid)
    (hs : mapLookup settingsMap sid = some (Settings.lua ls))
    (herr : l.tickFn leds ls = Except.error msg)
    (rest : List (ℤ × ℕ × ℕ)) :
    applyBindings impls settingsMap effect_settings ((eid, iv) :: rest)
        effectMap colors
      = applyBindings impls settingsMap effect_settings rest effectMap colors := by
  simp only [applyBindings, applyBinding_lua_error hslice he hsid hs herr]

/-- The strip argument of the dispatcher only matters through its colors and
connection id: the stored binding list is carried through untouched. -/
theorem send_to_connection_effects (cols : List Color)
    (effs effs2 : List (ℤ × ℕ × ℕ)) (cid : Option ℤ) (connection_id : ℤ)
    (conns : List (ℤ × Connection)) :
    send_to_connection ⟨cols, effs2, cid⟩ connection_id conns =
      (send_to_connection ⟨cols, effs, cid⟩ connection_id conns).map
        (fun t => (t.1, { t.2.1 with effects := effs2 }, t.2.2)) := by
  unfold send_to_connection
  cases mapLookup conns connection_id with
  | none => rfl
  | some c =>
    cases c with
    | usb => rfl
    | tcp t =>
      show (match tcpSend t ((List.map Color.to_bytes cols).flatten) with
        | Except.ok tcp2 => some (Except.ok (), (⟨cols, effs2, cid⟩ : LedStrip),
            mapUpdate conns connection_id (Connection.tcp tcp2))
        | Except.error _ => some (Except.ok (), (⟨cols, effs2, none⟩ : LedStrip),
            mapErase conns connection_id))
        = (match tcpSend t ((List.map Color.to_bytes cols).flatten) with
        | Except.ok tcp2 => some (Except.ok (), (⟨cols, effs, cid⟩ : LedStrip),
            mapUpdate conns connection_id (Connection.tcp tcp2))
        | Except.error _ => some (Except.ok (), (⟨cols, effs, none⟩ : LedStrip),
            mapErase conns connection_id)).map
          (fun t2 : Except String Unit × LedStrip × List (ℤ × Connection) =>
            (t2.1, { t2.2.1 with effects := effs2 }, t2.2.2))
      cases tcpSend t ((List.map Color.to_bytes cols).flatten) <;> rfl

/-- A strip runs the same way under two binding lists along which the inner
loop computes the same result; the final `map` only restores the stored
binding list. -/
theorem processStrip_skip_head {impls : EffectImpls}
    {settingsMap : List (ℤ × Settings)} {effect_settings : List (ℤ × ℤ)}
    {effectMap : List (ℤ × Effect)} {conns : List (ℤ × Connection)}
    (cols : List Color) (cid : Option ℤ) (effs1 effs2 : List (ℤ × ℕ × ℕ))
    (hab : applyBindings impls settingsMap effect_settings effs1 effectMap cols
      = applyBindings impls settingsMap effect_settings effs2 effectMap cols) :
    processStrip impls settingsMap effect_settings effectMap conns
        ⟨cols, effs1, cid⟩ =
      (processStrip impls settingsMap effect_settings effectMap conns
          ⟨cols, effs2, cid⟩).map
        (fun t => (t.1, t.2.1, { t.2.2 with effects := effs1 })) := by
  simp only [processStrip]
  rw [hab]
  cases hb : applyBindings impls settingsMap effect_settings effs2 effectMap cols with
  | none => rfl
  | some p =>
    obtain ⟨em2, c2⟩ := p
    cases cid with
    | none => rfl
    | some connection_id =>
      show (match send_to_connection ⟨c2, effs1, some connection_id⟩
            connection_id conns with
          | none => none
          | some (_result, strip3, connections2) => some (em2, connections2, strip3))
        = (match send_to_connection ⟨c2, effs2, some connection_id⟩
            connection_id conns with
          | none => none
          | some (_result, strip3, connections2) =>
            some (em2, connections2, strip3)).map
          (fun t : List (ℤ × Effect) × List (ℤ × Connection) × LedStrip =>
            (t.1, t.2.1, { t.2.2 with effects := effs1 }))
      rw [send_to_connection_effects c2 effs2 effs1 (some connection_id)
        connection_id conns]
      cases hsend : send_to_connection ⟨c2, effs2, some connection_id⟩
          connection_id conns with
      | none => rfl
      | some trip =>
        obtain ⟨r, strip3, conns3⟩ := trip
        rfl

/-- C7: a script effect whose per-tick update errors is logged and skipped —
the bound slice keeps the colors it held before the update, and the strip
behaves exactly as if that binding were absent this tick: the remaining
bindings run and the dispatch still executes, with no panic. (The final
`map` only restores the stored binding list, which the tick never mutates.) -/
theorem lua_error_skipped_for_tick (impls : EffectImpls)
    (settingsMap : List (ℤ × Settings)) (effect_settings : List (ℤ × ℤ))
    (effectMap : List (ℤ × Effect)) (conns : List (ℤ × Connection))
    (strip : LedStrip) (eid sid : ℤ) (iv : ℕ × ℕ) (rest : List (ℤ × ℕ × ℕ))
    (l : LuaEffect) (ls : LuaEffectSettings) (leds : List Color) (msg : String)
    (heff : strip.effects = (eid, iv) :: rest)
    (hslice : sliceGet strip.colors iv.1 iv.2 = some leds)
    (he : mapLookup effectMap eid = some (Effect.lua l))
    (hsid : mapLookup effect_settings eid = some sid)
    (hs : mapLookup settingsMap sid = some (Settings.lua ls))
    (herr : l.tickFn leds ls = Except.error msg) :
    applyBindings impls settingsMap effect_settings strip.effects effectMap
        strip.colors
      = applyBindings impls settingsMap effect_settings rest effectMap
        strip.colors
    ∧ processStrip impls settingsMap effect_settings effectMap conns strip =
      (processStrip impls settingsMap effect_settings effectMap conns
          { strip with effects := rest }).map
        (fun t => (t.1, t.2.1, { t.2.2 with effects := strip.effects })) := by
  have ha : applyBindings impls settingsMap effect_settings strip.effects effectMap
      strip.colors
      = applyBindings impls settingsMap effect_settings rest effectMap
        strip.colors := by
    rw [heff]
    exact applyBindings_lua_error_skip hslice he hsid hs herr rest
  refine ⟨ha, ?_⟩
  obtain ⟨cols, effs, cid⟩ := strip
  replace heff : effs = (eid, iv) :: rest := heff
  subst heff
  exact processStrip_skip_head cols cid ((eid, iv) :: rest) rest ha

/-- Witness for C7: the only binding of a one-LED strip is a Lua effect whose
tick always fails. -/
theorem lua_error_skipped_for_tick_witness :
    (applyBindings witnessImpls [((2 : ℤ), Settings.lua ⟨"x"⟩)]
        [((30 : ℤ), (2 : ℤ))] [((30 : ℤ), 0, 0)]
        [((30 : ℤ), Effect.lua ⟨fun _ _ => Except.error "boom"⟩)] [⟨9, 9, 9⟩]
      = applyBindings witnessImpls [((2 : ℤ), Settings.lua ⟨"x"⟩)]
        [((30 : ℤ), (2 : ℤ))] []
        [((30 : ℤ), Effect.lua ⟨fun _ _ => Except.error "boom"⟩)] [⟨9, 9, 9⟩])
    ∧ processStrip witnessImpls [((2 : ℤ), Settings.lua ⟨"x"⟩)]
        [((30 : ℤ), (2 : ℤ))]
        [((30 : ℤ), Effect.lua ⟨fun _ _ => Except.error "boom"⟩)] []
        ⟨[⟨9, 9, 9⟩], [((30 : ℤ), 0, 0)], none⟩
      = (processStrip witnessImpls [((2 : ℤ), Settings.lua ⟨"x"⟩)]
          [((30 : ℤ), (2 : ℤ))]
          [((30 : ℤ), Effect.lua ⟨fun _ _ => Except.error "boom"⟩)] []
          ⟨[⟨9, 9, 9⟩], [], none⟩).map
        (fun t => (t.1, t.2.1, { t.2.2 with effects := [((30 : ℤ), 0, 0)] })) :=
  lua_error_skipped_for_tick witnessImpls [((2 : ℤ), Settings.lua ⟨"x"⟩)]
    [((30 : ℤ), (2 : ℤ))]
    [((30 : ℤ), Effect.lua ⟨fun _ _ => Except.error "boom"⟩)] []
    ⟨[⟨9, 9, 9⟩], [((30 : ℤ), 0, 0)], none⟩ 30 2 (0, 0) []
    ⟨fun _ _ => Except.error "boom"⟩ ⟨"x"⟩ [⟨9, 9, 9⟩] "boom"
    rfl rfl rfl rfl rfl rfl

end TurboAudio
